import Mathlib

/-!
Verification of the batching scheduler in `elit/server/server.py`
(`ModelRunner`).

The embedding follows the source closely:

* `TaskRec` is the `our_task` dict: input payload, enqueue time, and the
  mutable `output` / `done_event` fields (here `output : Option Outcome`
  and `done : Bool`).  An `id` field models Python object identity so that
  "the same task in two batches" is expressible.
* `SysState` is the mutable state of a `ModelRunner` together with the
  bookkeeping the claims need: the list of armed-and-not-yet-fired asyncio
  timers (`armed`), the stored handle `needs_processing_timer` (`stored`),
  the dispatched batches, and the arguments of every Worker invocation.
* Each coroutine section that runs atomically (under `queue_lock`, or
  synchronously inside the single-threaded event loop) becomes one pure
  function on `SysState`; an `Ev` trace interleaves submissions, timer
  firings and dispatch-loop wakeups, and `run` folds the trace.
-/

/-- Scheduler configuration, fixed at construction
(`ModelRunner.__init__`). `max_wait` is modelled as a `Nat` number of
clock ticks. -/
structure Cfg where
  max_queue_size : Nat
  max_batch_size : Nat
  max_wait : Nat
deriving DecidableEq, Repr

/-- Outcome stored into a task's `output` field by the fan-out loop:
either a Worker output or the exception object that `run_model` caught. -/
inductive Outcome where
  | ok (v : Nat)
  | err (e : Nat)
deriving DecidableEq, Repr

/-- The `our_task` dict built in `process_input`: payload, enqueue time,
one-shot completion state.  `id` models Python object identity. -/
structure TaskRec where
  id : Nat
  input : Nat
  time : Nat
  output : Option Outcome := none
  done : Bool := false
deriving DecidableEq, Repr

/-- An armed asyncio timer created by `loop.call_at`: its handle and the
absolute deadline it was armed at. -/
structure Timer where
  handle : Nat
  deadline : Nat
deriving DecidableEq, Repr

/-- The state of a running `ModelRunner`, plus observation fields.
`armed` holds every timer that was armed and has neither fired nor been
cancelled; `stored` is the `needs_processing_timer` attribute (a handle,
or `none`).  `batches` records each dispatched batch after fan-out;
`workerCalls` records the argument of each `service.parse` invocation. -/
structure SysState where
  cfg : Cfg
  queue : List TaskRec
  nextId : Nat
  needs_processing : Bool
  stored : Option Nat
  armed : List Timer
  nextHandle : Nat
  batches : List (List TaskRec)
  workerCalls : List (List Nat)
deriving DecidableEq, Repr

/-- The Worker: `service.parse`, which either returns a list of outputs
or raises (modelled as `Except`). -/
def Worker : Type := List Nat → Except Nat (List Nat)

/-- `ModelRunner.schedule_processing_if_needed`: if the queue holds at
least `max_batch_size` tasks, set the `needs_processing` event; else if
the queue is nonempty, arm a timer at `queue[0].time + max_wait` with
`loop.call_at` and store its handle in `needs_processing_timer`
(overwriting the previous handle without cancelling it); else do
nothing. -/
def schedule_processing_if_needed (s : SysState) : SysState :=
  if s.cfg.max_batch_size ≤ s.queue.length then
    { s with needs_processing := true }
  else
    match s.queue with
    | [] => s
    | t :: _ =>
      { s with stored := some s.nextHandle
             , armed := s.armed ++ [⟨s.nextHandle, t.time + s.cfg.max_wait⟩]
             , nextHandle := s.nextHandle + 1 }

/-- The critical section of `ModelRunner.process_input` (the body of
`async with self.queue_lock`): if the queue already holds
`max_queue_size` tasks, raise `HandlingError` with code 503; otherwise
append the new task and invoke the scheduler decide step before
releasing the lock.  `time` is the caller's `loop.time()`.  (In the
source the `our_task` dict is built as a local just before the lock is
taken; a rejected call discards it without it ever touching any shared
structure, so the model constructs the record at the append site, which
is observationally identical.) -/
def process_input (s : SysState) (input time : Nat) : Except Nat SysState :=
  if s.cfg.max_queue_size ≤ s.queue.length then
    Except.error 503
  else
    schedule_processing_if_needed
      { s with queue := s.queue ++ [{ id := s.nextId, input := input, time := time }]
             , nextId := s.nextId + 1 }
    |> Except.ok

/-- `ModelRunner.run_model`: call `service.parse(batch)`; on an
exception, return the exception object repeated once per batch
element (`[e for _ in batch]`). -/
def run_model (w : Worker) (batch : List Nat) : List Outcome :=
  match w batch with
  | Except.ok outs => outs.map Outcome.ok
  | Except.error e => batch.map fun _ => Outcome.err e

/-- Fan-out assignment of one result to one task:
`t["output"] = r; t["done_event"].set()`. -/
def complete (t : TaskRec) (r : Outcome) : TaskRec :=
  { t with output := some r, done := true }

/-- The fan-out loop `for t, r in zip(to_process, result)`: pairs are
consumed in lockstep; when either list runs out the loop stops, so tasks
beyond the length of `result` are left untouched and surplus results are
dropped (the `zip` truncation). -/
def fan_out : List TaskRec → List Outcome → List TaskRec
  | t :: ts, r :: rs => complete t r :: fan_out ts rs
  | ts, [] => ts
  | [], _ :: _ => []

/-- One Worker invocation followed by fan-out, as `model_runner` does it:
`batch = [t["input"] for t in to_process]`, run the model, then zip the
results back onto the tasks. -/
def dispatch_cycle (w : Worker) (to_process : List TaskRec) : List TaskRec :=
  fan_out to_process (run_model w (to_process.map TaskRec.input))

/-- The batch-slicing critical section of `model_runner`
(`async with self.queue_lock`): take `to_process = queue[:max_batch_size]`,
delete that prefix from the queue, and re-invoke the scheduler decide
step before releasing the lock.  Returns the slice and the new state. -/
def dispatch_slice (s : SysState) : List TaskRec × SysState :=
  let to_process := s.queue.take s.cfg.max_batch_size
  (to_process,
   schedule_processing_if_needed { s with queue := s.queue.drop s.cfg.max_batch_size })

/-- Cancelling the stored `needs_processing_timer` handle (if any), as
the dispatch loop does right after waking: only the timer whose handle
is currently stored is cancelled; other armed timers are untouched. -/
def cancel_stored (s : SysState) : SysState :=
  match s.stored with
  | none => s
  | some h => { s with stored := none
                     , armed := s.armed.filter fun tm => tm.handle ≠ h }

/-- One full iteration of the `model_runner` loop, enabled when the
`needs_processing` event is set: clear the event, cancel the stored
timer, atomically slice a batch and re-run the decide step, then (off
the lock) invoke the Worker on the batch inputs and fan the results out.
The batch is recorded in `batches` and the Worker argument in
`workerCalls`.  If the event is not set the loop stays blocked on
`await needs_processing.wait()` and nothing happens. -/
def wake_dispatch (w : Worker) (s : SysState) : SysState :=
  if s.needs_processing then
    let s1 := cancel_stored { s with needs_processing := false }
    let slice := dispatch_slice s1
    let s2 := slice.2
    let batch := slice.1.map TaskRec.input
    let completed := fan_out slice.1 (run_model w batch)
    { s2 with batches := s2.batches ++ [completed]
            , workerCalls := s2.workerCalls ++ [batch] }
  else s

/-- An armed timer fires: enabled once the loop clock reaches its
deadline and only if it was neither cancelled nor already fired.  Its
callback is `needs_processing.set`; firing consumes the timer. -/
def fire_timer (s : SysState) (h now : Nat) : SysState :=
  match s.armed.find? (fun tm => tm.handle == h) with
  | some tm =>
    if tm.deadline ≤ now then
      { s with armed := s.armed.filter fun x => x.handle ≠ h
             , needs_processing := true }
    else s
  | none => s

/-- Externally visible events of an execution: a caller submitting an
input at a given loop time, a timer firing, and the dispatch loop waking
up. -/
inductive Ev where
  | submit (input time : Nat)
  | fire (h now : Nat)
  | wake
deriving DecidableEq, Repr

/-- One step of the interleaving semantics.  A rejected submission
(`process_input` raising 503) leaves the state unchanged. -/
def step (w : Worker) (s : SysState) : Ev → SysState
  | Ev.submit i t =>
    match process_input s i t with
    | Except.ok s' => s'
    | Except.error _ => s
  | Ev.fire h now => fire_timer s h now
  | Ev.wake => wake_dispatch w s

/-- Run an event trace from a state. -/
def run (w : Worker) (s : SysState) (evs : List Ev) : SysState :=
  evs.foldl (step w) s

/-- The state right after `model_runner` initializes the lock and the
event: empty queue, event clear, no timer ever armed, nothing
dispatched. -/
def init (cfg : Cfg) : SysState :=
  { cfg := cfg, queue := [], nextId := 0, needs_processing := false
  , stored := none, armed := [], nextHandle := 0, batches := []
  , workerCalls := [] }

/-- All task ids currently owned by the system: the dispatched batches
(in dispatch order) followed by the pending queue. -/
def idList (s : SysState) : List Nat :=
  (s.batches.flatten ++ s.queue).map TaskRec.id

/-- The bookkeeping invariant behind the uniqueness claims: no task id
occurs twice anywhere, and every allocated id is below the `nextId`
counter. -/
def SysInv (s : SysState) : Prop :=
  (idList s).Nodup ∧ ∀ n ∈ idList s, n < s.nextId

/-- A Worker that succeeds, echoing each input plus 100. -/
def wEcho : Worker := fun xs => Except.ok (xs.map fun x => x + 100)

/-- A Worker that raises on every call (exception object 7). -/
def wRaise : Worker := fun _ => Except.error 7

/-- A Worker that returns a single output regardless of batch size. -/
def wShort : Worker := fun _ => Except.ok [999]

/-- Small configuration: queue capacity 2, batch size 2. -/
def cfgA : Cfg := ⟨2, 2, 50⟩

/-- Configuration with batch size 3 and a large queue, used for the
timer-overwrite traces. -/
def cfgB : Cfg := ⟨10, 3, 50⟩

/-- A concrete full-queue state for the admission witnesses. -/
def sFull : SysState :=
  { cfg := cfgA
  , queue := [{ id := 0, input := 10, time := 0 }, { id := 1, input := 11, time := 1 }]
  , nextId := 2, needs_processing := true, stored := none, armed := []
  , nextHandle := 0, batches := [], workerCalls := [] }

/-- A concrete one-task state below capacity. -/
def sOne : SysState :=
  { cfg := cfgB
  , queue := [{ id := 0, input := 10, time := 4 }]
  , nextId := 1, needs_processing := false, stored := some 0
  , armed := [⟨0, 54⟩], nextHandle := 1, batches := [], workerCalls := [] }

/-- Trace: two submissions while `max_batch_size = 3`, so the decide
step takes the timer branch twice. -/
def trTwoTimers : List Ev := [Ev.submit 5 0, Ev.submit 6 1]

/-- Trace: fill a batch of 3, dispatch it, then the stale first timer
(whose handle was overwritten by the second submission's decide step and
therefore never cancelled) fires at its deadline, waking the loop on an
empty queue. -/
def trStale : List Ev :=
  [Ev.submit 1 0, Ev.submit 2 1, Ev.submit 3 2, Ev.wake, Ev.fire 0 50, Ev.wake]

/-- Trace: two submissions reach `max_batch_size = 2` and the loop wakes
before any timer fires. -/
def trFullBatch : List Ev := [Ev.submit 4 0, Ev.submit 5 1, Ev.wake]

/-- A concrete state in which the dispatch loop has just been signalled
while the queue is already empty (as a stale timer firing after a drain
produces). -/
def sIdleWake : SysState :=
  { cfg := cfgB, queue := [], nextId := 3, needs_processing := true
  , stored := none, armed := [], nextHandle := 2, batches := []
  , workerCalls := [] }

/-! ### Basic preservation lemmas -/

theorem schedule_queue (s : SysState) :
    (schedule_processing_if_needed s).queue = s.queue := by
  unfold schedule_processing_if_needed
  split
  · rfl
  · split <;> rfl

theorem schedule_cfg (s : SysState) :
    (schedule_processing_if_needed s).cfg = s.cfg := by
  unfold schedule_processing_if_needed
  split
  · rfl
  · split <;> rfl

theorem schedule_nextId (s : SysState) :
    (schedule_processing_if_needed s).nextId = s.nextId := by
  unfold schedule_processing_if_needed
  split
  · rfl
  · split <;> rfl

theorem schedule_batches (s : SysState) :
    (schedule_processing_if_needed s).batches = s.batches := by
  unfold schedule_processing_if_needed
  split
  · rfl
  · split <;> rfl

theorem cancel_stored_queue (s : SysState) : (cancel_stored s).queue = s.queue := by
  unfold cancel_stored
  split <;> rfl

theorem cancel_stored_cfg (s : SysState) : (cancel_stored s).cfg = s.cfg := by
  unfold cancel_stored
  split <;> rfl

theorem cancel_stored_nextId (s : SysState) : (cancel_stored s).nextId = s.nextId := by
  unfold cancel_stored
  split <;> rfl

theorem cancel_stored_batches (s : SysState) : (cancel_stored s).batches = s.batches := by
  unfold cancel_stored
  split <;> rfl

theorem fire_timer_queue (s : SysState) (h now : Nat) :
    (fire_timer s h now).queue = s.queue := by
  unfold fire_timer
  split
  · split <;> rfl
  · rfl

theorem fire_timer_cfg (s : SysState) (h now : Nat) :
    (fire_timer s h now).cfg = s.cfg := by
  unfold fire_timer
  split
  · split <;> rfl
  · rfl

theorem fire_timer_nextId (s : SysState) (h now : Nat) :
    (fire_timer s h now).nextId = s.nextId := by
  unfold fire_timer
  split
  · split <;> rfl
  · rfl

theorem fire_timer_batches (s : SysState) (h now : Nat) :
    (fire_timer s h now).batches = s.batches := by
  unfold fire_timer
  split
  · split <;> rfl
  · rfl

theorem run_preserves (P : SysState → Prop) (w : Worker)
    (hstep : ∀ s e, P s → P (step w s e)) :
    ∀ evs s, P s → P (run w s evs) := by
  intro evs
  induction evs with
  | nil => intro s h; exact h
  | cons e evs ih => intro s h; exact ih (step w s e) (hstep s e h)

theorem schedule_workerCalls (s : SysState) :
    (schedule_processing_if_needed s).workerCalls = s.workerCalls := by
  unfold schedule_processing_if_needed
  split
  · rfl
  · split <;> rfl

theorem cancel_stored_workerCalls (s : SysState) :
    (cancel_stored s).workerCalls = s.workerCalls := by
  unfold cancel_stored
  split <;> rfl

theorem wake_dispatch_queue (w : Worker) (s : SysState)
    (h : s.needs_processing = true) :
    (wake_dispatch w s).queue = s.queue.drop s.cfg.max_batch_size := by
  simp [wake_dispatch, h, dispatch_slice, schedule_queue, cancel_stored_queue,
    cancel_stored_cfg]

theorem wake_dispatch_cfg (w : Worker) (s : SysState) :
    (wake_dispatch w s).cfg = s.cfg := by
  by_cases h : s.needs_processing <;>
    simp [wake_dispatch, h, dispatch_slice, schedule_cfg, cancel_stored_cfg]

theorem wake_dispatch_nextId (w : Worker) (s : SysState) :
    (wake_dispatch w s).nextId = s.nextId := by
  by_cases h : s.needs_processing <;>
    simp [wake_dispatch, h, dispatch_slice, schedule_nextId, cancel_stored_nextId]

theorem step_cfg (w : Worker) (s : SysState) (e : Ev) :
    (step w s e).cfg = s.cfg := by
  cases e with
  | submit i t =>
    simp only [step]
    by_cases hc : s.cfg.max_queue_size ≤ s.queue.length
    · simp [process_input, hc]
    · simp [process_input, hc, schedule_cfg]
  | fire h now => simp [step, fire_timer_cfg]
  | wake => simp [step, wake_dispatch_cfg]

theorem step_queue_bound (w : Worker) (s : SysState) (e : Ev)
    (h : s.queue.length ≤ s.cfg.max_queue_size) :
    (step w s e).queue.length ≤ (step w s e).cfg.max_queue_size := by
  rw [step_cfg]
  cases e with
  | submit i t =>
    simp only [step]
    by_cases hc : s.cfg.max_queue_size ≤ s.queue.length
    · simp [process_input, hc]
      exact h
    · simp [process_input, hc, schedule_queue]
      omega
  | fire hh now => simpa [step, fire_timer_queue] using h
  | wake =>
    by_cases hn : s.needs_processing
    · rw [step, wake_dispatch_queue w s hn]
      simp only [List.length_drop]
      omega
    · simpa [step, wake_dispatch, hn] using h

theorem run_cfg (cfg : Cfg) (w : Worker) (evs : List Ev) :
    (run w (init cfg) evs).cfg = cfg :=
  run_preserves (fun x => x.cfg = cfg) w
    (fun s e hp => by
      show (step w s e).cfg = cfg
      rw [step_cfg]
      exact hp) evs (init cfg) rfl

theorem run_queue_bound (cfg : Cfg) (w : Worker) (evs : List Ev) :
    (run w (init cfg) evs).queue.length ≤ cfg.max_queue_size := by
  have h : (run w (init cfg) evs).queue.length ≤
      (run w (init cfg) evs).cfg.max_queue_size :=
    run_preserves (fun x => x.queue.length ≤ x.cfg.max_queue_size) w
      (fun s e hp => step_queue_bound w s e hp) evs (init cfg) (by simp [init])
  rw [run_cfg cfg w evs] at h
  exact h

/-! ### Claim theorems -/

/-- C1: `process_input` rejects with the 503 TooBusy error exactly when
the queue already holds `max_queue_size` or more tasks, and otherwise
appends the new task to the queue; the check and the append form one
critical section under the queue lock, modelled as a single atomic
transition.  Consequently, in every execution the queue length sampled
immediately after any admission decision is at most `max_queue_size`. -/
theorem admission_bounds_queue :
    (∀ (s : SysState) (i t : Nat), s.cfg.max_queue_size ≤ s.queue.length →
        process_input s i t = Except.error 503) ∧
    (∀ (s : SysState) (i t : Nat), s.queue.length < s.cfg.max_queue_size →
        ∃ s', process_input s i t = Except.ok s' ∧
          s'.queue = s.queue ++ [{ id := s.nextId, input := i, time := t }] ∧
          s'.queue.length ≤ s.cfg.max_queue_size) ∧
    (∀ (cfg : Cfg) (w : Worker) (evs : List Ev),
        (run w (init cfg) evs).queue.length ≤ cfg.max_queue_size) := by
  refine ⟨?_, ?_, fun cfg w evs => run_queue_bound cfg w evs⟩
  · intro s i t hc
    simp [process_input, hc]
  · intro s i t hc
    have hnc : ¬ s.cfg.max_queue_size ≤ s.queue.length := Nat.not_le.mpr hc
    refine ⟨schedule_processing_if_needed
      { s with queue := s.queue ++ [{ id := s.nextId, input := i, time := t }]
             , nextId := s.nextId + 1 }, ?_, ?_, ?_⟩
    · simp [process_input, hnc]
    · exact schedule_queue _
    · rw [schedule_queue]
      simp only [List.length_append, List.length_cons, List.length_nil]
      omega

theorem admission_bounds_queue_witness :
    process_input sFull 7 3 = Except.error 503 ∧
    (∃ s', process_input sOne 7 3 = Except.ok s' ∧
      s'.queue = sOne.queue ++ [{ id := sOne.nextId, input := 7, time := 3 }] ∧
      s'.queue.length ≤ sOne.cfg.max_queue_size) :=
  ⟨admission_bounds_queue.1 sFull 7 3 (by decide),
   admission_bounds_queue.2.1 sOne 7 3 (by decide)⟩

/-- C3: a submission arriving while the queue is at capacity returns the
TooBusy rejection and has no effect at all: the resulting state (queue,
`needs_processing` event, stored timer handle, armed timers, id counter)
is exactly the state before the call, and no task enters the system. -/
theorem reject_is_pure (w : Worker) (s : SysState) (i t : Nat)
    (h : s.cfg.max_queue_size ≤ s.queue.length) :
    process_input s i t = Except.error 503 ∧ step w s (Ev.submit i t) = s := by
  constructor
  · simp [process_input, h]
  · simp [step, process_input, h]

theorem reject_is_pure_witness :
    process_input sFull 7 3 = Except.error 503 ∧
    step wEcho sFull (Ev.submit 7 3) = sFull :=
  reject_is_pure wEcho sFull 7 3 (by decide)

/-- C4: when the decide step runs with queue length at least
`max_batch_size`, it sets the `needs_processing` event and changes
nothing else — in particular it arms no timer (`armed` and `stored` are
untouched).  Concretely, with `max_batch_size = 2`, two submissions
followed by a wakeup dispatch both tasks together in one batch, with no
timer ever firing. -/
theorem batch_full_signals_immediately :
    (∀ s : SysState, s.cfg.max_batch_size ≤ s.queue.length →
        schedule_processing_if_needed s = { s with needs_processing := true }) ∧
    (run wEcho (init cfgA) trFullBatch).batches.map (List.map TaskRec.input)
      = [[4, 5]] ∧
    (run wEcho (init cfgA) trFullBatch).queue = [] := by
  refine ⟨?_, by decide, by decide⟩
  intro s h
  simp [schedule_processing_if_needed, h]

theorem batch_full_signals_immediately_witness :
    schedule_processing_if_needed sFull = { sFull with needs_processing := true } :=
  batch_full_signals_immediately.1 sFull (by decide)

/-- C5: the dispatch critical section removes exactly the oldest
`min (queue length) max_batch_size` tasks, as the prefix of the queue in
FIFO order (the batch concatenated with the remaining queue is the
original queue), never more than `max_batch_size`, and re-invokes the
scheduler decide step on the remaining queue inside the same critical
section. -/
theorem dispatch_slices_fifo_front (s : SysState) :
    (dispatch_slice s).1 = s.queue.take s.cfg.max_batch_size ∧
    (dispatch_slice s).1.length = min s.queue.length s.cfg.max_batch_size ∧
    (dispatch_slice s).1.length ≤ s.cfg.max_batch_size ∧
    (dispatch_slice s).1 ++ (dispatch_slice s).2.queue = s.queue ∧
    (dispatch_slice s).2 =
      schedule_processing_if_needed
        { s with queue := s.queue.drop s.cfg.max_batch_size } := by
  refine ⟨rfl, ?_, ?_, ?_, rfl⟩
  · simp [dispatch_slice, List.length_take, Nat.min_comm]
  · simp [dispatch_slice, List.length_take]
  · simp [dispatch_slice, schedule_queue]

theorem fan_out_eq_zipWith :
    ∀ (ts : List TaskRec) (rs : List Outcome), ts.length = rs.length →
      fan_out ts rs = List.zipWith complete ts rs := by
  intro ts
  induction ts with
  | nil => intro rs h; cases rs <;> simp_all [fan_out]
  | cons t ts ih =>
    intro rs h
    cases rs with
    | nil => simp at h
    | cons r rs => simp [fan_out, ih rs (by simpa using h)]

theorem zipWith_getElem_opt {α β γ : Type} (f : α → β → γ) :
    ∀ (as : List α) (bs : List β) (i : Nat) (a : α) (b : β),
      as[i]? = some a → bs[i]? = some b →
      (List.zipWith f as bs)[i]? = some (f a b) := by
  intro as
  induction as with
  | nil => intro bs i a b ha; simp at ha
  | cons x as ih =>
    intro bs i a b ha hb
    cases bs with
    | nil => simp at hb
    | cons y bs =>
      cases i with
      | zero =>
        simp at ha hb
        simp [ha, hb]
      | succ i =>
        simp at ha hb
        simpa using ih bs i a b ha hb

/-- C6: when the Worker succeeds on a batch and returns as many outputs
as there are tasks, fan-out assigns the i-th output to the i-th task of
the batch — the dispatched batch becomes exactly the zip of the tasks
with their own outputs, in order, with no cross-assignment — and every
task's completion flag is set (its one-shot event fires once, going from
unset to set). -/
theorem success_fanout_in_order (w : Worker) (ts : List TaskRec) (outs : List Nat)
    (hw : w (ts.map TaskRec.input) = Except.ok outs)
    (hlen : outs.length = ts.length) :
    dispatch_cycle w ts
      = List.zipWith (fun t r => complete t (Outcome.ok r)) ts outs ∧
    (dispatch_cycle w ts).length = ts.length ∧
    (∀ (i : Nat) (t : TaskRec) (r : Nat), ts[i]? = some t → outs[i]? = some r →
        (dispatch_cycle w ts)[i]? = some (complete t (Outcome.ok r))) := by
  have hrm : run_model w (ts.map TaskRec.input) = outs.map Outcome.ok := by
    simp [run_model, hw]
  have hmain : dispatch_cycle w ts
      = List.zipWith (fun t r => complete t (Outcome.ok r)) ts outs := by
    rw [dispatch_cycle, hrm,
      fan_out_eq_zipWith ts (outs.map Outcome.ok) (by simp [hlen]),
      List.zipWith_map_right]
  refine ⟨hmain, ?_, ?_⟩
  · rw [hmain]
    simp [List.length_zipWith, hlen]
  · intro i t r ht hr
    rw [hmain]
    exact zipWith_getElem_opt _ ts outs i t r ht hr

theorem success_fanout_in_order_witness :
    dispatch_cycle wEcho
        [{ id := 0, input := 10, time := 0 }, { id := 1, input := 11, time := 1 }]
      = List.zipWith (fun t r => complete t (Outcome.ok r))
          [{ id := 0, input := 10, time := 0 }, { id := 1, input := 11, time := 1 }]
          [110, 111] ∧
    (dispatch_cycle wEcho
        [{ id := 0, input := 10, time := 0 }, { id := 1, input := 11, time := 1 }]).length
      = 2 ∧
    (∀ (i : Nat) (t : TaskRec) (r : Nat),
        [{ id := 0, input := 10, time := 0 }, { id := 1, input := 11, time := 1 }][i]?
          = some t →
        [110, 111][i]? = some r →
        (dispatch_cycle wEcho
            [{ id := 0, input := 10, time := 0 },
             { id := 1, input := 11, time := 1 }])[i]?
          = some (complete t (Outcome.ok r))) :=
  success_fanout_in_order wEcho
    [{ id := 0, input := 10, time := 0 }, { id := 1, input := 11, time := 1 }]
    [110, 111] rfl rfl

/-- C7: when the Worker invocation raises, `run_model` returns the
exception once per batch element, so fan-out gives every task of the
batch the same failure outcome and sets every completion flag — no
partial success and no task of the failing batch left pending. -/
theorem failure_fanout_all (w : Worker) (ts : List TaskRec) (e : Nat)
    (hw : w (ts.map TaskRec.input) = Except.error e) :
    dispatch_cycle w ts = ts.map (fun t => complete t (Outcome.err e)) ∧
    ∀ t' ∈ dispatch_cycle w ts,
      t'.done = true ∧ t'.output = some (Outcome.err e) := by
  have hrm : run_model w (ts.map TaskRec.input)
      = ts.map (fun _ => Outcome.err e) := by
    unfold run_model
    rw [hw]
    exact List.map_map _ _ _
  have hmain : dispatch_cycle w ts
      = ts.map (fun t => complete t (Outcome.err e)) := by
    rw [dispatch_cycle, hrm,
      fan_out_eq_zipWith ts (ts.map fun _ => Outcome.err e) (by simp),
      List.zipWith_map_right, List.zipWith_same]
  refine ⟨hmain, ?_⟩
  intro t' ht'
  rw [hmain] at ht'
  rcases List.mem_map.mp ht' with ⟨t, _, rfl⟩
  exact ⟨rfl, rfl⟩

theorem failure_fanout_all_witness :
    dispatch_cycle wRaise
        [{ id := 0, input := 10, time := 0 }, { id := 1, input := 11, time := 1 }]
      = List.map (fun t => complete t (Outcome.err 7))
          [{ id := 0, input := 10, time := 0 }, { id := 1, input := 11, time := 1 }] ∧
    (∀ t' ∈ dispatch_cycle wRaise
        [{ id := 0, input := 10, time := 0 }, { id := 1, input := 11, time := 1 }],
      t'.done = true ∧ t'.output = some (Outcome.err 7)) :=
  failure_fanout_all wRaise
    [{ id := 0, input := 10, time := 0 }, { id := 1, input := 11, time := 1 }]
    7 rfl

theorem fan_out_nil (rs : List Outcome) : fan_out [] rs = [] := by
  cases rs <;> rfl

/-- C8 is refuted by the code: the fan-out loop is a `zip`, which stops
at the shorter list.  On a batch of two tasks with a Worker result of
length one, the second task gets no output and its completion event is
never set — it hangs, contradicting the required exactly-one-terminal-
state guarantee.  This theorem evaluates the code at that failing
input. -/
theorem short_result_leaves_task_pending :
    dispatch_cycle wShort
        [{ id := 0, input := 10, time := 0 }, { id := 1, input := 11, time := 1 }]
      = [complete { id := 0, input := 10, time := 0 } (Outcome.ok 999),
         { id := 1, input := 11, time := 1 }] ∧
    (dispatch_cycle wShort
        [{ id := 0, input := 10, time := 0 }, { id := 1, input := 11, time := 1 }])[1]?
      = some { id := 1, input := 11, time := 1, output := none, done := false } := by
  constructor
  · rfl
  · rfl

/-- Counterexample to C2 as stated: after two submissions with
`max_batch_size = 3`, the decide step has armed a second timer (handle 1)
while overwriting the stored handle without cancelling timer 0 — two
deadline timers are outstanding at once, so "at most one deadline timer
is outstanding" and "cancels any previously armed timer before arming a
new one" are both false of the code. -/
theorem two_timers_outstanding :
    (run wEcho (init cfgB) trTwoTimers).armed
      = [{ handle := 0, deadline := 50 }, { handle := 1, deadline := 50 }] ∧
    (run wEcho (init cfgB) trTwoTimers).stored = some 1 := by
  constructor
  · rfl
  · rfl

/-- C2 amended: at most one timer *handle* is stored in
`needs_processing_timer`, and a newly armed timer always references the
current oldest queued task (deadline `oldest.time + max_wait`); but the
decide step does not cancel the previously armed timer — it merely
overwrites the stored handle, leaving every previously armed timer
outstanding (only the dispatch loop, on wake, cancels the one currently
stored handle). -/
theorem decide_step_overwrites_stored_timer (s : SysState) (t : TaskRec)
    (ts : List TaskRec) (hq : s.queue = t :: ts)
    (hlt : s.queue.length < s.cfg.max_batch_size) :
    schedule_processing_if_needed s =
      { s with stored := some s.nextHandle
             , armed := s.armed ++ [⟨s.nextHandle, t.time + s.cfg.max_wait⟩]
             , nextHandle := s.nextHandle + 1 } := by
  rw [hq] at hlt
  simp only [List.length_cons] at hlt
  have hnc : ¬ s.cfg.max_batch_size ≤ ts.length + 1 := Nat.not_le.mpr hlt
  simp [schedule_processing_if_needed, hq, hnc, hlt]

theorem decide_step_overwrites_stored_timer_witness :
    schedule_processing_if_needed sOne =
      { sOne with
          stored := some sOne.nextHandle,
          armed := sOne.armed ++ [⟨sOne.nextHandle, 4 + sOne.cfg.max_wait⟩],
          nextHandle := sOne.nextHandle + 1 } :=
  decide_step_overwrites_stored_timer sOne { id := 0, input := 10, time := 4 } []
    rfl (by decide)

/-- C10: when the dispatch loop wakes with an empty queue (reachable via
a stale timer whose handle was overwritten rather than cancelled, firing
after a size-triggered dispatch drained the queue), it still runs a full
dispatch cycle: the Worker is invoked on the empty list rather than the
invocation being skipped, and an empty batch is recorded.  The concrete
trace `trStale` reaches exactly this: the second recorded Worker call is
`[]`. -/
theorem empty_queue_wake_invokes_worker :
    (∀ (w : Worker) (s : SysState), s.needs_processing = true → s.queue = [] →
        (wake_dispatch w s).workerCalls = s.workerCalls ++ [[]] ∧
        (wake_dispatch w s).batches = s.batches ++ [[]]) ∧
    (run wEcho (init cfgB) trStale).workerCalls = [[1, 2, 3], []] := by
  refine ⟨?_, by decide⟩
  intro w s hn hq
  constructor
  · simp [wake_dispatch, hn, dispatch_slice, hq, schedule_workerCalls,
      cancel_stored_workerCalls, cancel_stored_queue, fan_out_nil]
  · simp [wake_dispatch, hn, dispatch_slice, hq, schedule_batches,
      cancel_stored_batches, cancel_stored_queue, fan_out_nil]

theorem empty_queue_wake_invokes_worker_witness :
    (wake_dispatch wEcho sIdleWake).workerCalls = sIdleWake.workerCalls ++ [[]] ∧
    (wake_dispatch wEcho sIdleWake).batches = sIdleWake.batches ++ [[]] :=
  empty_queue_wake_invokes_worker.1 wEcho sIdleWake rfl rfl

theorem fan_out_map_id :
    ∀ (ts : List TaskRec) (rs : List Outcome),
      (fan_out ts rs).map TaskRec.id = ts.map TaskRec.id := by
  intro ts
  induction ts with
  | nil => intro rs; rw [fan_out_nil]
  | cons t ts ih =>
    intro rs
    cases rs with
    | nil => rfl
    | cons r rs => simp [fan_out, complete, ih rs]

theorem fire_timer_idList (s : SysState) (h now : Nat) :
    idList (fire_timer s h now) = idList s := by
  simp [idList, fire_timer_batches, fire_timer_queue]

theorem wake_dispatch_idList (w : Worker) (s : SysState) :
    idList (wake_dispatch w s) = idList s := by
  by_cases hn : s.needs_processing
  · simp only [wake_dispatch, hn, if_true, idList, dispatch_slice]
    simp only [schedule_batches, cancel_stored_batches, schedule_queue,
      cancel_stored_queue, cancel_stored_cfg, List.flatten_append,
      List.flatten_cons, List.flatten_nil, List.append_nil, List.map_append,
      fan_out_map_id, List.append_assoc]
    rw [← List.map_append, List.take_append_drop]
  · simp [wake_dispatch, hn]

theorem submit_accept_idList (s : SysState) (i t : Nat)
    (hc : ¬ s.cfg.max_queue_size ≤ s.queue.length) (w : Worker) :
    idList (step w s (Ev.submit i t)) = idList s ++ [s.nextId] := by
  simp [step, process_input, hc, idList, schedule_batches, schedule_queue,
    List.map_append]

theorem step_SysInv (w : Worker) (s : SysState) (e : Ev) (h : SysInv s) :
    SysInv (step w s e) := by
  obtain ⟨hnd, hbound⟩ := h
  cases e with
  | submit i t =>
    by_cases hc : s.cfg.max_queue_size ≤ s.queue.length
    · simp only [step, process_input, hc, if_true]
      exact ⟨hnd, hbound⟩
    · have hid := submit_accept_idList s i t hc w
      have hnext : (step w s (Ev.submit i t)).nextId = s.nextId + 1 := by
        simp [step, process_input, hc, schedule_nextId]
      constructor
      · rw [hid, List.nodup_append]
        refine ⟨hnd, List.nodup_singleton _, ?_⟩
        intro a ha hb
        rw [List.mem_singleton] at hb
        subst hb
        exact absurd (hbound _ ha) (lt_irrefl _)
      · rw [hid, hnext]
        intro n hn
        rcases List.mem_append.mp hn with h1 | h1
        · exact Nat.lt_succ_of_lt (hbound n h1)
        · rw [List.mem_singleton] at h1
          omega
  | fire hh now =>
    have h1 : idList (step w s (Ev.fire hh now)) = idList s := by
      simp [step, fire_timer_idList]
    have h2 : (step w s (Ev.fire hh now)).nextId = s.nextId := by
      simp [step, fire_timer_nextId]
    rw [SysInv, h1, h2]
    exact ⟨hnd, hbound⟩
  | wake =>
    have h1 : idList (step w s Ev.wake) = idList s := by
      simp [step, wake_dispatch_idList]
    have h2 : (step w s Ev.wake).nextId = s.nextId := by
      simp [step, wake_dispatch_nextId]
    rw [SysInv, h1, h2]
    exact ⟨hnd, hbound⟩

theorem run_SysInv (cfg : Cfg) (w : Worker) (evs : List Ev) :
    SysInv (run w (init cfg) evs) :=
  run_preserves SysInv w (fun s e hs => step_SysInv w s e hs) evs (init cfg)
    ⟨by simp [SysInv, idList, init], by simp [SysInv, idList, init]⟩

/-- C9: in every interleaving of submissions, timer firings and
dispatches, no task is ever included in more than one dispatched batch
(the ids of the flattened batch history are pairwise distinct), and a
dispatched task never remains in the queue (the ids of the batch history
together with the pending queue are pairwise distinct). -/
theorem no_task_in_two_batches (cfg : Cfg) (w : Worker) (evs : List Ev) :
    ((run w (init cfg) evs).batches.flatten.map TaskRec.id).Nodup ∧
    (idList (run w (init cfg) evs)).Nodup := by
  have h := (run_SysInv cfg w evs).1
  refine ⟨?_, h⟩
  rw [idList, List.map_append] at h
  exact (List.nodup_append.mp h).1
